import Mathlib

/-!
Shallow embedding of the ChessBot rules engine (src/Chess.py) and proofs of
the specification claims.  Boards are eight rows of eight characters with a
dot for an empty square, squares are (row, column) pairs of Python integers,
and every function below is a direct translation of the corresponding Python
function of the same name.
-/

namespace ChessBot

/-- Piece and player colors, mirroring the "white" / "black" strings used in
the source. -/
inductive Color where
  | white
  | black
deriving DecidableEq, Repr

/-- Castling side, mirroring the 'king' / 'queen' strings used in the source. -/
inductive Side where
  | king
  | queen
deriving DecidableEq, Repr

/-- A board is the list-of-rows of characters used by the source. -/
abbrev Board := List (List Char)

/-- A square is a (row, column) pair of Python integers. -/
abbrev Square := Int × Int

/-- Translation of in_bounds: 0 <= r < 8 and 0 <= c < 8. -/
def in_bounds (r c : Int) : Bool :=
  decide (0 ≤ r ∧ r < 8 ∧ 0 ≤ c ∧ c < 8)

/-- Total model of the Python read board[r][c].  Every read performed by the
source happens after an in_bounds test, so the out-of-range fallback value is
never observed by the translated code. -/
def bget (b : Board) (r c : Int) : Char :=
  if in_bounds r c then (b.getD r.toNat []).getD c.toNat '.' else '.'

/-- Total model of the Python write board[r][c] = ch, under the same
in-bounds discipline as bget. -/
def bset (b : Board) (r c : Int) (ch : Char) : Board :=
  if in_bounds r c then b.set r.toNat ((b.getD r.toNat []).set c.toNat ch) else b

/-- Translation of get_piece_color. -/
def get_piece_color (piece : Char) : Option Color :=
  if piece = '.' then none
  else if piece.isUpper then some .white else some .black

/-- Translation of is_white. -/
def is_white (piece : Char) : Bool := piece.isUpper

/-- Translation of is_black. -/
def is_black (piece : Char) : Bool := piece.isLower

/-- The color the source computes as "white" if is_white(piece) else "black". -/
def piece_color_at (b : Board) (s : Square) : Color :=
  if is_white (bget b s.1 s.2) then .white else .black

/-- The knight offsets of build_knight_moves. -/
def knight_offsets : List (Int × Int) :=
  [(-2, -1), (-2, 1), (-1, -2), (-1, 2), (1, -2), (1, 2), (2, -1), (2, 1)]

/-- The king offsets of build_king_moves. -/
def king_offsets : List (Int × Int) :=
  [(-1, -1), (-1, 0), (-1, 1), (0, -1), (0, 1), (1, -1), (1, 0), (1, 1)]

/-- Entry of the KNIGHT_MOVES table for square (r, c): each offset applied to
(r, c), kept when the result is in bounds, in offset order. -/
def knight_moves (r c : Int) : List Square :=
  (knight_offsets.map (fun d => (r + d.1, c + d.2))).filter (fun s => in_bounds s.1 s.2)

/-- Entry of the KING_MOVES table for square (r, c). -/
def king_moves (r c : Int) : List Square :=
  (king_offsets.map (fun d => (r + d.1, c + d.2))).filter (fun s => in_bounds s.1 s.2)

/-- The while loop of build_sliding_moves: squares outward from (r, c) in
direction (dr, dc), nearest first, stopping at the first square out of
bounds.  The fuel argument bounds the loop; eight steps is more than any ray
from an in-bounds square can take, so the cutoff is never reached for the
squares the tables are built for. -/
def ray_from (r c dr dc : Int) : Nat → List Square
  | 0 => []
  | n + 1 =>
    if in_bounds (r + dr) (c + dc) then
      (r + dr, c + dc) :: ray_from (r + dr) (c + dc) dr dc n
    else []

/-- One ray of the ROOK_SLIDES / BISHOP_SLIDES tables. -/
def ray (r c dr dc : Int) : List Square := ray_from r c dr dc 8

/-- The rook directions of build_sliding_moves, in source order. -/
def rook_dirs : List (Int × Int) := [(1, 0), (-1, 0), (0, 1), (0, -1)]

/-- The bishop directions of build_sliding_moves, in source order. -/
def bishop_dirs : List (Int × Int) := [(1, 1), (1, -1), (-1, 1), (-1, -1)]

/-- Entry of the ROOK_SLIDES table for square (r, c). -/
def rook_slides (r c : Int) : List (List Square) :=
  rook_dirs.map (fun d => ray r c d.1 d.2)

/-- Entry of the BISHOP_SLIDES table for square (r, c). -/
def bishop_slides (r c : Int) : List (List Square) :=
  bishop_dirs.map (fun d => ray r c d.1 d.2)

/-- Inner loop of valid_rook_move / valid_bishop_move: walk one ray outward,
succeed on reaching the destination, fail on the first occupied square met
before it. -/
def ray_scan (b : Board) (e : Square) : List Square → Bool
  | [] => false
  | sq :: rest =>
    if sq = e then true
    else if bget b sq.1 sq.2 ≠ '.' then false
    else ray_scan b e rest

/-- Outer loop of valid_rook_move / valid_bishop_move: scan the first ray
that contains the destination, otherwise fail. -/
def slide_valid (b : Board) (e : Square) : List (List Square) → Bool
  | [] => false
  | r :: rest => if e ∈ r then ray_scan b e r else slide_valid b e rest

/-- Translation of valid_rook_move. -/
def valid_rook_move (b : Board) (s e : Square) : Bool :=
  slide_valid b e (rook_slides s.1 s.2)

/-- Translation of valid_bishop_move. -/
def valid_bishop_move (b : Board) (s e : Square) : Bool :=
  slide_valid b e (bishop_slides s.1 s.2)

/-- Translation of valid_queen_move. -/
def valid_queen_move (b : Board) (s e : Square) : Bool :=
  valid_rook_move b s e || valid_bishop_move b s e

/-- Translation of valid_pawn_move.  The sequence of early returns of the
source becomes a chain of conditionals tested in the same order. -/
def valid_pawn_move (b : Board) (s e : Square) (turn_white : Bool)
    (en_passant_target : Option Square) : Bool :=
  let r1 := s.1; let c1 := s.2
  let r2 := e.1; let c2 := e.2
  let direction : Int := if turn_white then -1 else 1
  let start_row : Int := if turn_white then 6 else 1
  let enemy_color : Color := if turn_white then .black else .white
  if c1 = c2 ∧ r2 = r1 + direction ∧ bget b r2 c2 = '.' then true
  else if c1 = c2 ∧ r1 = start_row ∧ r2 = r1 + 2 * direction ∧
      bget b (r1 + direction) c1 = '.' ∧ bget b r2 c2 = '.' then true
  else if (c2 - c1).natAbs = 1 ∧ r2 = r1 + direction ∧
      bget b r2 c2 ≠ '.' ∧ get_piece_color (bget b r2 c2) = some enemy_color then true
  else if (c2 - c1).natAbs = 1 ∧ r2 = r1 + direction ∧
      en_passant_target = some (r2, c2) ∧ bget b r2 c2 = '.' then true
  else false

/-- Translation of is_valid_move with checking_check = False: bounds test,
piece presence, turn ownership, own-piece destination test, then the
per-piece geometry dispatch.  No self-check simulation is performed. -/
def valid_geom (b : Board) (s e : Square) (turn_white : Bool)
    (en_passant_target : Option Square) : Bool :=
  if ¬ (in_bounds s.1 s.2 ∧ in_bounds e.1 e.2) then false
  else if bget b s.1 s.2 = '.' then false
  else if turn_white ∧ piece_color_at b s ≠ .white then false
  else if ¬ turn_white ∧ piece_color_at b s ≠ .black then false
  else if bget b e.1 e.2 ≠ '.' ∧
      get_piece_color (bget b e.1 e.2) = some (piece_color_at b s) then false
  else if (bget b s.1 s.2).toUpper = 'P' then
    valid_pawn_move b s e turn_white en_passant_target
  else if (bget b s.1 s.2).toUpper = 'N' then decide (e ∈ knight_moves s.1 s.2)
  else if (bget b s.1 s.2).toUpper = 'B' then valid_bishop_move b s e
  else if (bget b s.1 s.2).toUpper = 'R' then valid_rook_move b s e
  else if (bget b s.1 s.2).toUpper = 'Q' then valid_queen_move b s e
  else if (bget b s.1 s.2).toUpper = 'K' then decide (e ∈ king_moves s.1 s.2)
  else false

/-- The row and column indices 0..7 the source's range(8) loops iterate, as
Python integers. -/
def r8 : List Int := [0, 1, 2, 3, 4, 5, 6, 7]

/-- All 64 squares in the row-major order the source scans them. -/
def squares8 : List Square := r8.flatMap (fun r => r8.map (fun c => (r, c)))

/-- Translation of find_king_position: first square holding the king
character of the color, scanning row-major. -/
def find_king_position (b : Board) (color : Color) : Option Square :=
  let king_char := if color = .white then 'K' else 'k'
  squares8.find? (fun sq => bget b sq.1 sq.2 = king_char)

/-- Translation of in_check: the king of the color can be reached by some
enemy piece, tested with geometry-only validation (checking_check = False). -/
def in_check (b : Board) (color : Color) : Bool :=
  match find_king_position b color with
  | none => false
  | some king_pos =>
    squares8.any (fun sq =>
      let piece := bget b sq.1 sq.2
      decide (piece ≠ '.') && decide (get_piece_color piece ≠ some color) &&
        valid_geom b sq king_pos (decide (get_piece_color piece = some .white)) none)

/-- The scratch board built by the self-check simulation inside
is_valid_move: clear the origin, apply the en-passant capture removal, place
the moved piece on the destination. -/
def sim_board (b : Board) (s e : Square) (en_passant_target : Option Square) : Board :=
  let piece := bget b s.1 s.2
  let p := piece.toUpper
  let t1 := bset b s.1 s.2 '.'
  let t2 :=
    if p = 'P' ∧ en_passant_target = some e ∧ s.2 ≠ e.2 ∧ bget t1 e.1 e.2 = '.' then
      bset t1 s.1 e.2 '.'
    else t1
  bset t2 e.1 e.2 piece

/-- Translation of is_valid_move; the last argument is the checking_check
flag.  With the flag set, geometry must hold and the mover must not be in
check on the scratch board of the simulated move. -/
def is_valid_move (b : Board) (s e : Square) (turn_white : Bool)
    (en_passant_target : Option Square) (checking : Bool) : Bool :=
  if checking then
    valid_geom b s e turn_white en_passant_target &&
      !(in_check (sim_board b s e en_passant_target) (piece_color_at b s))
  else
    valid_geom b s e turn_white en_passant_target

/-- The computation row = 7 if color == white else 0 shared by the castling
and execution functions. -/
def home_row (color : Color) : Int :=
  if color = .white then 7 else 0

/-- The computation of the king character for a color. -/
def king_char (color : Color) : Char :=
  if color = .white then 'K' else 'k'

/-- Translation of can_castle.  The early returns of the source become a
left-to-right conjunction of the same guards in the same order; the two
scratch boards step the king one square at a time exactly as the source
mutates its temp board. -/
def can_castle (b : Board) (color : Color) (side : Side)
    (castling_rights : Bool × Bool) : Bool :=
  let row : Int := home_row color
  let king_char := king_char color
  match side with
  | .king =>
    castling_rights.1 &&
    decide (bget b row 4 = king_char) &&
    (decide (bget b row 5 = '.') && decide (bget b row 6 = '.')) &&
    (decide (bget b row 7 = 'R' ∨ bget b row 7 = 'r') &&
      decide (get_piece_color (bget b row 7) = some color)) &&
    !(in_check (bset (bset b row 4 '.') row 5 king_char) color) &&
    !(in_check (bset (bset (bset (bset b row 4 '.') row 5 king_char) row 5 '.')
        row 6 king_char) color)
  | .queen =>
    castling_rights.2 &&
    decide (bget b row 4 = king_char) &&
    (decide (bget b row 3 = '.') && decide (bget b row 2 = '.') &&
      decide (bget b row 1 = '.')) &&
    (decide (bget b row 0 = 'R' ∨ bget b row 0 = 'r') &&
      decide (get_piece_color (bget b row 0) = some color)) &&
    !(in_check (bset (bset b row 4 '.') row 3 king_char) color) &&
    !(in_check (bset (bset (bset (bset b row 4 '.') row 3 king_char) row 3 '.')
        row 2 king_char) color)

/-- Translation of do_castle. -/
def do_castle (b : Board) (color : Color) (side : Side) : Board :=
  let row : Int := home_row color
  let king_char := king_char color
  match side with
  | .king =>
    let b1 := bset b row 4 '.'
    let b2 := bset b1 row 6 king_char
    let b3 := bset b2 row 5 (bget b2 row 7)
    bset b3 row 7 '.'
  | .queen =>
    let b1 := bset b row 4 '.'
    let b2 := bset b1 row 2 king_char
    let b3 := bset b2 row 3 (bget b2 row 0)
    bset b3 row 0 '.'

/-- The castling-rights dictionary: one (king side, queen side) pair per
color, mirroring the two-element lists of the source. -/
structure CRights where
  white : Bool × Bool
  black : Bool × Bool
deriving DecidableEq, Repr

/-- Lookup castling_rights_dict[color]. -/
def CRights.get (cr : CRights) (color : Color) : Bool × Bool :=
  match color with
  | .white => cr.white
  | .black => cr.black

/-- Assignment castling_rights_dict[color] = v. -/
def CRights.put (cr : CRights) (color : Color) (v : Bool × Bool) : CRights :=
  match color with
  | .white => { cr with white := v }
  | .black => { cr with black := v }

/-- Translation of move_with_extras.  The interactive promotion_choice prompt
is modelled by the promo argument, the synchronous promotion policy; the
mutated board and rights are returned alongside the new en-passant target. -/
def move_with_extras (b : Board) (s e : Square) (turn_white : Bool)
    (en_passant_target : Option Square) (cr : CRights) (promo : Color → Char) :
    Board × Option Square × CRights :=
  let r1 := s.1; let c1 := s.2
  let r2 := e.1; let c2 := e.2
  let piece := bget b r1 c1
  let p := piece.toUpper
  let color : Color := if is_white piece then .white else .black
  let row : Int := home_row color
  if p = 'K' ∧ r1 = row ∧ c1 = 4 ∧ (r2, c2) = (row, (6 : Int)) ∧
      can_castle b color .king (cr.get color) then
    (do_castle b color .king, none, cr.put color (false, false))
  else if p = 'K' ∧ r1 = row ∧ c1 = 4 ∧ (r2, c2) = (row, (2 : Int)) ∧
      can_castle b color .queen (cr.get color) then
    (do_castle b color .queen, none, cr.put color (false, false))
  else
    let b1 := bset b r1 c1 '.'
    let b2 :=
      if p = 'P' ∧ en_passant_target = some (r2, c2) ∧ c1 ≠ c2 ∧
          bget b1 r2 c2 = '.' then
        bset b1 r1 c2 '.'
      else b1
    let b3 := bset b2 r2 c2 piece
    let new_en_passant : Option Square :=
      if p = 'P' ∧ (r2 - r1).natAbs = 2 then some ((r1 + r2) / 2, c1) else none
    let b4 :=
      if p = 'P' ∧ ((color = .white ∧ r2 = 0) ∨ (color = .black ∧ r2 = 7)) then
        bset b3 r2 c2 (promo color)
      else b3
    let cr1 :=
      if p = 'K' then cr.put color (false, false)
      else if p = 'R' then
        if color = .white then
          if r1 = 7 ∧ c1 = 0 then cr.put color ((cr.get color).1, false)
          else if r1 = 7 ∧ c1 = 7 then cr.put color (false, (cr.get color).2)
          else cr
        else
          if r1 = 0 ∧ c1 = 0 then cr.put color ((cr.get color).1, false)
          else if r1 = 0 ∧ c1 = 7 then cr.put color (false, (cr.get color).2)
          else cr
      else cr
    (b4, new_en_passant, cr1)

/-- Translation of STARTING_BOARD. -/
def STARTING_BOARD : Board :=
  [ "rnbqkbnr".toList, "pppppppp".toList, "........".toList, "........".toList,
    "........".toList, "........".toList, "PPPPPPPP".toList, "RNBQKBNR".toList ]

/-- The authoritative mutable state of main: board, side to move, en-passant
target and castling rights. -/
structure GameState where
  board : Board
  turn_white : Bool
  en_passant_target : Option Square
  castling_rights : CRights
deriving DecidableEq, Repr

/-- One accept-or-reject iteration of main for an already parsed move:
validate with checking_check = True, simulate move_with_extras on a copy and
reject when the mover is still in check, otherwise commit the move to the
authoritative state and flip the side to move.  Both reject paths leave the
state untouched, as main's continue statements do. -/
def turn_step (gs : GameState) (s e : Square) (promo : Color → Char) : GameState :=
  let player_color : Color := if gs.turn_white then .white else .black
  if is_valid_move gs.board s e gs.turn_white gs.en_passant_target true then
    let sim := move_with_extras gs.board s e gs.turn_white gs.en_passant_target
      gs.castling_rights promo
    if in_check sim.1 player_color then gs
    else
      let res := move_with_extras gs.board s e gs.turn_white gs.en_passant_target
        gs.castling_rights promo
      { board := res.1, turn_white := !gs.turn_white,
        en_passant_target := res.2.1, castling_rights := res.2.2 }
  else gs

/-- The initial rights dictionary CASTLE_RIGHTS. -/
def CASTLE_RIGHTS : CRights := ⟨(true, true), (true, true)⟩

/-- The game state main starts from. -/
def initGS : GameState := ⟨STARTING_BOARD, true, none, CASTLE_RIGHTS⟩

/-- A deterministic promotion policy: a queen of the mover's color, one legal
behavior of the promotion_choice collaborator. -/
def promoQ (color : Color) : Char :=
  if color = .white then 'Q' else 'q'

/-! ### Concrete boards used by the claim theorems -/

/-- White king on e1, white rook on h1, f1 and g1 empty, black king on e8:
the position of castling scenario 4, with no black piece attacking e1, f1 or
g1. -/
def b_castle : Board :=
  [ "....k...".toList, "........".toList, "........".toList, "........".toList,
    "........".toList, "........".toList, "........".toList, "....K..R".toList ]

/-- The position after a white kingside castle from b_castle: king on g1,
rook on f1. -/
def b_castle_done : Board :=
  [ "....k...".toList, "........".toList, "........".toList, "........".toList,
    "........".toList, "........".toList, "........".toList, ".....RK.".toList ]

/-- Like b_castle but with a black rook on e8 (black king moved to a8): the
white king on e1 is attacked, while f1 and g1 are not. -/
def b_cc : Board :=
  [ "k...r...".toList, "........".toList, "........".toList, "........".toList,
    "........".toList, "........".toList, "........".toList, "....K..R".toList ]

/-- En-passant scenario 3: white pawn on e5, black pawn just arrived on d5
(after d7 d5), kings on their home squares; the en-passant target is d6. -/
def b_ep : Board :=
  [ "....k...".toList, "........".toList, "........".toList, "...pP...".toList,
    "........".toList, "........".toList, "........".toList, "....K...".toList ]

/-! ### Basic facts about board access -/

/-- An out-of-bounds read yields the empty-square marker. -/
lemma bget_oob {b : Board} {r c : Int} (h : in_bounds r c = false) :
    bget b r c = '.' := by
  simp [bget, h]

/-- A square holding a piece is in bounds. -/
lemma in_bounds_of_bget_ne {b : Board} {r c : Int} (h : bget b r c ≠ '.') :
    in_bounds r c = true := by
  cases hb : in_bounds r c
  · exact absurd (bget_oob hb) h
  · rfl

/-- Overwriting an entry of a list and reading it back at the same index. -/
lemma list_getD_set_same {α : Type} :
    ∀ (l : List α) (n : Nat) (x d : α), n < l.length → (l.set n x).getD n d = x := by
  intro l
  induction l with
  | nil => intro n x d h; simp at h
  | cons a t ih =>
    intro n x d h
    cases n with
    | zero => rfl
    | succ m => exact ih m x d (by simpa using h)

/-- Overwriting an entry of a list leaves reads at other indices unchanged. -/
lemma list_getD_set_other {α : Type} :
    ∀ (l : List α) (n m : Nat) (x : α) (d : α), n ≠ m →
      (l.set n x).getD m d = l.getD m d := by
  intro l
  induction l with
  | nil => intro n m x d _; rfl
  | cons a t ih =>
    intro n m x d h
    cases n with
    | zero =>
      cases m with
      | zero => exact absurd rfl h
      | succ k => rfl
    | succ j =>
      cases m with
      | zero => rfl
      | succ k => exact ih j k x d (by omega)

/-- Well-formed board: eight rows of eight squares; STARTING_BOARD and every
board reachable from it satisfy this. -/
abbrev WB (b : Board) : Prop := b.length = 8 ∧ ∀ row ∈ b, row.length = 8

/-- bset preserves well-formedness. -/
lemma WB_bset {b : Board} (hwb : WB b) (r c : Int) (ch : Char) :
    WB (bset b r c ch) := by
  by_cases hin : in_bounds r c = true
  · have hb : (0 : Int) ≤ r ∧ r < 8 ∧ 0 ≤ c ∧ c < 8 := by
      simpa [in_bounds] using hin
    have hr : r.toNat < b.length := by rw [hwb.1]; omega
    have hrowlen : (b.getD r.toNat []).length = 8 := by
      refine hwb.2 _ ?_
      rw [List.getD_eq_getElem _ _ hr]
      exact List.getElem_mem hr
    unfold bset
    rw [if_pos hin]
    refine ⟨by simpa using hwb.1, ?_⟩
    intro row hrow
    rcases List.mem_or_eq_of_mem_set hrow with h | h
    · exact hwb.2 row h
    · subst h
      rw [List.length_set]
      exact hrowlen
  · unfold bset
    rw [if_neg hin]
    exact hwb

/-- Reading back the square just written. -/
lemma bget_bset_same {b : Board} (hwb : WB b) {r c : Int}
    (hin : in_bounds r c = true) (ch : Char) :
    bget (bset b r c ch) r c = ch := by
  have hb : (0 : Int) ≤ r ∧ r < 8 ∧ 0 ≤ c ∧ c < 8 := by
    simpa [in_bounds] using hin
  have hr : r.toNat < b.length := by rw [hwb.1]; omega
  have hrowmem : b.getD r.toNat [] ∈ b := by
    rw [List.getD_eq_getElem _ _ hr]; exact List.getElem_mem hr
  have hrowlen : (b.getD r.toNat []).length = 8 := hwb.2 _ hrowmem
  unfold bget bset
  rw [if_pos hin, if_pos hin]
  rw [list_getD_set_same _ _ _ _ hr]
  exact list_getD_set_same _ _ _ _ (by rw [hrowlen]; omega)

/-- Reading any other square after a write. -/
lemma bget_bset_other {b : Board} {r c r' c' : Int}
    (hne : (r', c') ≠ (r, c)) (ch : Char) :
    bget (bset b r c ch) r' c' = bget b r' c' := by
  by_cases hin : in_bounds r c = true
  · by_cases hin' : in_bounds r' c' = true
    · have hb : (0 : Int) ≤ r ∧ r < 8 ∧ 0 ≤ c ∧ c < 8 := by
        simpa [in_bounds] using hin
      have hb' : (0 : Int) ≤ r' ∧ r' < 8 ∧ 0 ≤ c' ∧ c' < 8 := by
        simpa [in_bounds] using hin'
      unfold bget bset
      rw [if_pos hin, if_pos hin', if_pos hin']
      rcases eq_or_ne r' r with hr | hr
      · subst hr
        have hc : c' ≠ c := by
          intro h; exact hne (by rw [h])
        rcases Nat.lt_or_ge r'.toNat b.length with hlt | hge
        · rw [list_getD_set_same _ _ _ _ hlt]
          exact list_getD_set_other _ _ _ _ _ (by omega)
        · have h1 : (b.set r'.toNat ((b.getD r'.toNat []).set c.toNat ch)).getD r'.toNat ([] : List Char) = [] := by
            apply List.getD_eq_default
            rw [List.length_set]
            exact hge
          have h2 : b.getD r'.toNat ([] : List Char) = [] := List.getD_eq_default _ _ hge
          rw [h1, h2]
      · rw [list_getD_set_other _ _ _ _ _ (by omega)]
    · have hf : in_bounds r' c' = false := by simpa using hin'
      rw [bget_oob hf, bget_oob hf]
  · have hf : in_bounds r c = false := by simpa using hin
    unfold bset
    rw [hf]
    simp

/-- Row indices 0..7. -/
lemma mem_r8 (a : Int) : a ∈ r8 ↔ 0 ≤ a ∧ a < 8 := by
  simp only [r8, List.mem_cons, List.not_mem_nil, or_false]
  omega

/-- Membership in the row-major scan list is exactly being in bounds. -/
lemma mem_squares8 (sq : Square) :
    sq ∈ squares8 ↔ in_bounds sq.1 sq.2 = true := by
  obtain ⟨r, c⟩ := sq
  simp only [squares8, List.mem_flatMap, List.mem_map, in_bounds, decide_eq_true_eq]
  constructor
  · rintro ⟨a, ha, b, hb, hab⟩
    rw [mem_r8] at ha hb
    cases hab
    exact ⟨ha.1, ha.2, hb.1, hb.2⟩
  · rintro ⟨h1, h2, h3, h4⟩
    exact ⟨r, (mem_r8 r).mpr ⟨h1, h2⟩, c, (mem_r8 c).mpr ⟨h3, h4⟩, rfl⟩

/-! ### Claim C1: the castling scenario through the full turn pipeline.
The executor is able to castle and would produce exactly the position the
scenario describes, but the validator gate of the pipeline has no castling
branch and the KING_MOVES table holds only one-square steps, so the move
"e1 g1" is rejected before the executor is ever reached and the state does
not change. -/

/-- Claim C1.  In the scenario-4 position (white king e1, rook h1, f1/g1
empty, both white rights, no attacker of e1/f1/g1), can_castle itself accepts
kingside castling and move_with_extras invoked directly would produce king on
g1, rook on f1 and cleared white rights; but is_valid_move — the gate the
turn pipeline runs first — returns false on "e1 g1", so the pipeline rejects
the move and leaves the game state unchanged, contradicting the claimed
acceptance. -/
theorem c1_castling_rejected_by_pipeline :
    can_castle b_castle .white .king (true, true) = true ∧
    move_with_extras b_castle (7, 4) (7, 6) true none CASTLE_RIGHTS promoQ =
      (b_castle_done, none, ⟨(false, false), (true, true)⟩) ∧
    is_valid_move b_castle (7, 4) (7, 6) true none true = false ∧
    turn_step ⟨b_castle, true, none, CASTLE_RIGHTS⟩ (7, 4) (7, 6) promoQ =
      ⟨b_castle, true, none, CASTLE_RIGHTS⟩ := by
  refine ⟨by decide, by decide, by decide, by decide⟩

/-! ### Claim C2, counterexample: can_castle never tests the origin square. -/

/-- Counterexample to claim C2 as stated: on b_cc the black rook on e8
attacks the white king on its origin square e1 (white is in check), yet
can_castle still accepts white kingside castling, because the source only
tests the two squares the king steps to (f1, g1) and never the origin. -/
theorem c2_counterexample_origin_square_not_tested :
    can_castle b_cc .white .king (true, true) = true ∧
    in_check b_cc .white = true := by
  refine ⟨by decide, by decide⟩

/-! ### Claim C3: rejected moves leave the authoritative state unchanged. -/

/-- Claim C3.  Whenever a candidate move fails either gate of the turn
pipeline — validation with checking_check = True (which covers bounds, piece
geometry, own-piece targets and king safety), or the redundant simulate-and-
recheck gate — turn_step returns the game state exactly as it was: board,
castling rights, en-passant target and side to move are all untouched. -/
theorem c3_rejected_move_leaves_state_unchanged
    (gs : GameState) (s e : Square) (promo : Color → Char)
    (h : is_valid_move gs.board s e gs.turn_white gs.en_passant_target true = false ∨
      in_check (move_with_extras gs.board s e gs.turn_white gs.en_passant_target
        gs.castling_rights promo).1
        (if gs.turn_white then Color.white else Color.black) = true) :
    turn_step gs s e promo = gs := by
  rcases h with h | h
  · simp [turn_step, h]
  · simp [turn_step, h]

/-- Witness for C3: from the initial position the pawn push "e2 e5" (three
ranks) is rejected and the state is unchanged. -/
theorem c3_witness :
    turn_step initGS (6, 4) (3, 4) promoQ = initGS :=
  c3_rejected_move_leaves_state_unchanged initGS (6, 4) (3, 4) promoQ
    (Or.inl (by decide))

/-! ### Claim C9: the mode discipline that makes the mutual recursion bounded. -/

/-- Claim C9.  Full-safety validation decomposes as geometry-only validation
plus exactly one check-detection query on the simulated scratch board; and
check detection itself is exactly a scan that re-enters validation only in
geometry-only mode (checking_check = False), which performs no further check
detection.  Together these equations exhibit the recursion structure the
claim describes: the mutually recursive pair bottoms out after one
simulation. -/
theorem c9_check_detection_uses_geometry_only_mode :
    (∀ (b : Board) (s e : Square) (tw : Bool) (ep : Option Square),
      is_valid_move b s e tw ep true =
        (is_valid_move b s e tw ep false &&
          !(in_check (sim_board b s e ep) (piece_color_at b s)))) ∧
    (∀ (b : Board) (color : Color) (kp : Square),
      find_king_position b color = some kp →
      in_check b color = squares8.any (fun sq =>
        decide (bget b sq.1 sq.2 ≠ '.') &&
        decide (get_piece_color (bget b sq.1 sq.2) ≠ some color) &&
        is_valid_move b sq kp
          (decide (get_piece_color (bget b sq.1 sq.2) = some .white)) none false)) := by
  constructor
  · intro b s e tw ep
    rfl
  · intro b color kp h
    simp only [in_check, h, is_valid_move, if_false, Bool.false_eq_true]

/-- Witness for C9, applying both equations on the initial position, where
the white king is found on e1. -/
theorem c9_witness :
    (is_valid_move STARTING_BOARD (6, 4) (4, 4) true none true =
      (is_valid_move STARTING_BOARD (6, 4) (4, 4) true none false &&
        !(in_check (sim_board STARTING_BOARD (6, 4) (4, 4) none)
          (piece_color_at STARTING_BOARD (6, 4))))) ∧
    in_check STARTING_BOARD .white = squares8.any (fun sq =>
      decide (bget STARTING_BOARD sq.1 sq.2 ≠ '.') &&
      decide (get_piece_color (bget STARTING_BOARD sq.1 sq.2) ≠ some .white) &&
      is_valid_move STARTING_BOARD sq (7, 4)
        (decide (get_piece_color (bget STARTING_BOARD sq.1 sq.2) = some .white))
        none false) :=
  ⟨c9_check_detection_uses_geometry_only_mode.1 STARTING_BOARD (6, 4) (4, 4) true none,
   c9_check_detection_uses_geometry_only_mode.2 STARTING_BOARD .white (7, 4) (by decide)⟩

/-! ### Claim C10: out-of-bounds coordinates are rejected before any access. -/

/-- Claim C10.  For arbitrary integer coordinates — including the ones the
text parser produces for inputs like "e9" (row -1) or "j1" (column 9) —
is_valid_move returns false, in either mode, as soon as the origin or the
destination is out of bounds; the bounds test is the first conjunct of the
validator, so out-of-range square text surfaces as an ordinary rejection. -/
theorem c10_out_of_bounds_rejected
    (b : Board) (s e : Square) (tw : Bool) (ep : Option Square) (checking : Bool)
    (h : in_bounds s.1 s.2 = false ∨ in_bounds e.1 e.2 = false) :
    is_valid_move b s e tw ep checking = false := by
  have hg : valid_geom b s e tw ep = false := by
    rcases h with h | h <;> simp [valid_geom, h]
  cases checking <;> simp [is_valid_move, hg]

/-- Witness for C10: the parser maps "e9 e4" to origin (-1, 4), which the
validator rejects from the initial position. -/
theorem c10_witness :
    is_valid_move STARTING_BOARD (-1, 4) (4, 4) true none true = false :=
  c10_out_of_bounds_rejected STARTING_BOARD (-1, 4) (4, 4) true none true
    (Or.inl (by decide))

/-! ### Claim C8: missing king fallback and attack characterization. -/

/-- Claim C8.  If the board holds no king of the color, in_check returns
false rather than failing; otherwise it returns true exactly when some square
holds an opposing piece whose geometry-only validation reaches the king's
square. -/
theorem c8_in_check_characterization (b : Board) (color : Color) :
    (find_king_position b color = none → in_check b color = false) ∧
    (∀ kp : Square, find_king_position b color = some kp →
      (in_check b color = true ↔ ∃ r c : Int, bget b r c ≠ '.' ∧
        get_piece_color (bget b r c) ≠ some color ∧
        valid_geom b (r, c) kp
          (decide (get_piece_color (bget b r c) = some .white)) none = true)) := by
  constructor
  · intro h
    simp [in_check, h]
  · intro kp h
    rw [in_check, h]
    rw [List.any_eq_true]
    constructor
    · rintro ⟨sq, hsq, hf⟩
      obtain ⟨r, c⟩ := sq
      simp only [Bool.and_eq_true, decide_eq_true_eq] at hf
      exact ⟨r, c, hf.1.1, hf.1.2, hf.2⟩
    · rintro ⟨r, c, h1, h2, h3⟩
      refine ⟨(r, c), ?_, ?_⟩
      · rw [mem_squares8]
        exact in_bounds_of_bget_ne h1
      · simp only [Bool.and_eq_true, decide_eq_true_eq]
        exact ⟨⟨h1, h2⟩, h3⟩

/-- Witness for C8: a board of 64 empty squares has no white king, and
in_check reports false instead of failing. -/
theorem c8_witness :
    in_check (List.replicate 8 (List.replicate 8 '.')) Color.white = false :=
  (c8_in_check_characterization (List.replicate 8 (List.replicate 8 '.')) .white).1
    (by decide)

/-! ### Claim C7: castling rights are monotonically non-increasing. -/

/-- The rights component of move_with_extras: the castling branch and the
plain king branch both clear the mover's pair, a corner rook move clears the
matching right, and nothing else touches the dictionary. -/
lemma move_with_extras_rights (b : Board) (s e : Square) (tw : Bool)
    (ep : Option Square) (cr : CRights) (promo : Color → Char) :
    (move_with_extras b s e tw ep cr promo).2.2 =
      (if (bget b s.1 s.2).toUpper = 'K' then
        cr.put (piece_color_at b s) (false, false)
      else if (bget b s.1 s.2).toUpper = 'R' then
        if piece_color_at b s = .white then
          if s.1 = 7 ∧ s.2 = 0 then
            cr.put (piece_color_at b s) ((cr.get (piece_color_at b s)).1, false)
          else if s.1 = 7 ∧ s.2 = 7 then
            cr.put (piece_color_at b s) (false, (cr.get (piece_color_at b s)).2)
          else cr
        else
          if s.1 = 0 ∧ s.2 = 0 then
            cr.put (piece_color_at b s) ((cr.get (piece_color_at b s)).1, false)
          else if s.1 = 0 ∧ s.2 = 7 then
            cr.put (piece_color_at b s) (false, (cr.get (piece_color_at b s)).2)
          else cr
      else cr) := by
  cases hw : is_white (bget b s.1 s.2) <;>
    simp only [move_with_extras, piece_color_at, hw, Bool.false_eq_true,
      Bool.true_eq_false, if_false, if_true] <;>
  · split
    · rename_i hg
      rw [if_pos hg.1]
    · split
      · rename_i hg
        rw [if_pos hg.1]
      · rfl

/-- Claim C7.  Rights returned by move_with_extras are pointwise at most the
rights passed in (a right that comes back true was already true — nothing
ever restores a right); any king move, castling included, clears both rights
of the mover's color; a rook moving off its home corner clears exactly the
corresponding right (file a the queenside one, file h the kingside one),
leaving the other right of that color and the whole pair of the other color
untouched; and no move ever touches the other color's pair. -/
theorem c7_castling_rights_monotone (b : Board) (s e : Square) (tw : Bool)
    (ep : Option Square) (cr : CRights) (promo : Color → Char) :
    (((move_with_extras b s e tw ep cr promo).2.2.white.1 = true → cr.white.1 = true) ∧
     ((move_with_extras b s e tw ep cr promo).2.2.white.2 = true → cr.white.2 = true) ∧
     ((move_with_extras b s e tw ep cr promo).2.2.black.1 = true → cr.black.1 = true) ∧
     ((move_with_extras b s e tw ep cr promo).2.2.black.2 = true → cr.black.2 = true)) ∧
    ((bget b s.1 s.2).toUpper = 'K' →
      ((move_with_extras b s e tw ep cr promo).2.2).get (piece_color_at b s) =
        (false, false)) ∧
    ((bget b s.1 s.2).toUpper = 'R' → s.1 = home_row (piece_color_at b s) →
      ((s.2 = 0 →
        ((move_with_extras b s e tw ep cr promo).2.2).get (piece_color_at b s) =
          ((cr.get (piece_color_at b s)).1, false)) ∧
       (s.2 = 7 →
        ((move_with_extras b s e tw ep cr promo).2.2).get (piece_color_at b s) =
          (false, (cr.get (piece_color_at b s)).2)))) ∧
    (∀ c : Color, c ≠ piece_color_at b s →
      ((move_with_extras b s e tw ep cr promo).2.2).get c = cr.get c) := by
  rw [move_with_extras_rights]
  constructor
  · cases hc : piece_color_at b s <;>
      split_ifs <;> simp_all [CRights.put, CRights.get]
  refine ⟨?_, ?_, ?_⟩
  · intro hK
    rw [if_pos hK]
    cases piece_color_at b s <;> simp [CRights.put, CRights.get]
  · intro hR hrow
    have hK : ¬ (bget b s.1 s.2).toUpper = 'K' := by
      rw [hR]; decide
    rw [if_neg hK, if_pos hR]
    cases hc : piece_color_at b s
    · rw [if_pos rfl]
      constructor
      · intro h0
        rw [if_pos ⟨by simpa [home_row, hc] using hrow, h0⟩]
        simp [CRights.put, CRights.get]
      · intro h7
        have hne : ¬ (s.1 = 7 ∧ s.2 = 0) := by
          intro hcon; omega
        rw [if_neg hne, if_pos ⟨by simpa [home_row, hc] using hrow, h7⟩]
        simp [CRights.put, CRights.get]
    · rw [if_neg (by simp)]
      constructor
      · intro h0
        rw [if_pos ⟨by simpa [home_row, hc] using hrow, h0⟩]
        simp [CRights.put, CRights.get]
      · intro h7
        have hne : ¬ (s.1 = 0 ∧ s.2 = 0) := by
          intro hcon; omega
        rw [if_neg hne, if_pos ⟨by simpa [home_row, hc] using hrow, h7⟩]
        simp [CRights.put, CRights.get]
  · intro c hc
    cases hpc : piece_color_at b s <;> cases c <;>
      split_ifs <;> simp_all [CRights.put, CRights.get]

/-- Witness for C7: a lone white king stepping e1 to e2 clears both white
rights and leaves black's pair alone. -/
theorem c7_witness :
    ((move_with_extras b_castle (7, 4) (6, 4) true none CASTLE_RIGHTS promoQ).2.2).get
      (piece_color_at b_castle (7, 4)) = (false, false) ∧
    ((move_with_extras b_castle (7, 4) (6, 4) true none CASTLE_RIGHTS promoQ).2.2).get
      Color.black = CASTLE_RIGHTS.get Color.black :=
  ⟨(c7_castling_rights_monotone b_castle (7, 4) (6, 4) true none CASTLE_RIGHTS promoQ).2.1
      (by decide),
   (c7_castling_rights_monotone b_castle (7, 4) (6, 4) true none CASTLE_RIGHTS promoQ).2.2.2
      Color.black (by decide)⟩

/-! ### Claim C6: en-passant target lifetime. -/

/-- Facts extracted from a successful geometry-only validation: both squares
in bounds, a piece on the origin, the turn matching the piece's color, and,
when the piece is a pawn, pawn geometry holding. -/
lemma valid_geom_true_elim {b : Board} {s e : Square} {tw : Bool}
    {ep : Option Square} (h : valid_geom b s e tw ep = true) :
    in_bounds s.1 s.2 = true ∧ in_bounds e.1 e.2 = true ∧
    bget b s.1 s.2 ≠ '.' ∧ tw = is_white (bget b s.1 s.2) ∧
    ((bget b s.1 s.2).toUpper = 'P' → valid_pawn_move b s e tw ep = true) := by
  rw [valid_geom] at h
  by_cases hb : (in_bounds s.1 s.2 = true ∧ in_bounds e.1 e.2 = true)
  case neg =>
    rw [if_pos hb] at h
    exact absurd h (by simp)
  rw [if_neg (not_not_intro hb)] at h
  by_cases hdot : bget b s.1 s.2 = '.'
  case pos =>
    rw [if_pos hdot] at h
    exact absurd h (by simp)
  rw [if_neg hdot] at h
  by_cases ht1 : tw = true ∧ piece_color_at b s ≠ .white
  case pos =>
    rw [if_pos ht1] at h
    exact absurd h (by simp)
  rw [if_neg ht1] at h
  by_cases ht2 : ¬ tw = true ∧ piece_color_at b s ≠ .black
  case pos =>
    rw [if_pos ht2] at h
    exact absurd h (by simp)
  rw [if_neg ht2] at h
  have htw : tw = is_white (bget b s.1 s.2) := by
    push_neg at ht1 ht2
    cases hw : is_white (bget b s.1 s.2) <;> cases htv : tw
    · rfl
    · have hc := ht1 (by rw [htv])
      rw [piece_color_at, hw] at hc
      simp at hc
    · have hc := ht2 (by rw [htv]; simp)
      rw [piece_color_at, hw] at hc
      simp at hc
    · rfl
  refine ⟨hb.1, hb.2, hdot, htw, ?_⟩
  intro hP
  by_cases htgt : bget b e.1 e.2 ≠ '.' ∧
      get_piece_color (bget b e.1 e.2) = some (piece_color_at b s)
  case pos =>
    rw [if_pos htgt] at h
    exact absurd h (by simp)
  rw [if_neg htgt, if_pos hP] at h
  exact h


/-- A pawn move that passed geometry and spans two ranks must be the
double-step branch: from the home rank, two squares toward the enemy. -/
lemma valid_pawn_move_two {b : Board} {s e : Square} {tw : Bool}
    {ep : Option Square} (h : valid_pawn_move b s e tw ep = true)
    (h2 : (e.1 - s.1).natAbs = 2) :
    s.1 = (if tw then (6 : Int) else 1) ∧
    e.1 = s.1 + 2 * (if tw then (-1 : Int) else 1) := by
  cases tw <;>
  · simp only [valid_pawn_move, Bool.false_eq_true, if_false, if_true] at h ⊢
    split_ifs at h with g1 g2 g3 g4
    · exfalso
      obtain ⟨-, hr, -⟩ := g1
      omega
    · obtain ⟨-, hrow, hr, -⟩ := g2
      exact ⟨hrow, by omega⟩
    · exfalso
      obtain ⟨-, hr, -⟩ := g3
      omega
    · exfalso
      obtain ⟨-, hr, -, -⟩ := g4
      omega


/-- The en-passant component of move_with_extras: some target exactly when a
pawn spanned two ranks, and then the intermediate square. -/
lemma move_with_extras_ep (b : Board) (s e : Square) (tw : Bool)
    (ep : Option Square) (cr : CRights) (promo : Color → Char) :
    (move_with_extras b s e tw ep cr promo).2.1 =
      (if (bget b s.1 s.2).toUpper = 'P' ∧ (e.1 - s.1).natAbs = 2 then
        some ((s.1 + e.1) / 2, s.2)
      else none) := by
  cases hw : is_white (bget b s.1 s.2) <;>
    simp only [move_with_extras, piece_color_at, hw, Bool.false_eq_true,
      Bool.true_eq_false, if_false, if_true] <;>
  · split
    · rename_i hg
      rw [if_neg]
      intro hcon
      rw [hcon.1] at hg
      exact absurd hg.1 (by decide)
    · split
      · rename_i hg
        rw [if_neg]
        intro hcon
        rw [hcon.1] at hg
        exact absurd hg.1 (by decide)
      · rfl

/-- Claim C6.  For a move accepted by full validation, move_with_extras
returns some en-passant target exactly when the moved piece is a pawn
advancing two ranks from its home rank, and the target is then the
intermediate square; every other accepted move (castling included) returns
none, so a target set on one ply is cleared or replaced by the next accepted
move. -/
theorem c6_en_passant_target_exactly_on_double_step
    (b : Board) (s e : Square) (tw : Bool) (ep : Option Square)
    (cr : CRights) (promo : Color → Char) (t : Square)
    (hv : is_valid_move b s e tw ep true = true) :
    (move_with_extras b s e tw ep cr promo).2.1 = some t ↔
      ((bget b s.1 s.2).toUpper = 'P' ∧
       s.1 = (if is_white (bget b s.1 s.2) then (6 : Int) else 1) ∧
       e.1 = s.1 + 2 * (if is_white (bget b s.1 s.2) then (-1 : Int) else 1) ∧
       t = (s.1 + (if is_white (bget b s.1 s.2) then (-1 : Int) else 1), s.2)) := by
  have hg : valid_geom b s e tw ep = true := by
    have hv' := hv
    simp only [is_valid_move, if_true, Bool.and_eq_true] at hv'
    exact hv'.1
  obtain ⟨-, -, -, htw, hPimp⟩ := valid_geom_true_elim hg
  subst htw
  rw [move_with_extras_ep]
  constructor
  · intro h
    split_ifs at h with hcond
    obtain ⟨hP, habs⟩ := hcond
    obtain ⟨hhome, hdest⟩ := valid_pawn_move_two (hPimp hP) habs
    refine ⟨hP, hhome, hdest, ?_⟩
    have ht' := h.symm
    rw [Option.some.injEq] at ht'
    rw [ht', Prod.mk.injEq]
    refine ⟨?_, rfl⟩
    cases hw : is_white (bget b s.1 s.2) <;>
      simp only [hw, Bool.false_eq_true, if_false, eq_self_iff_true, if_true] at hdest ⊢ <;>
      omega
  · rintro ⟨hP, hhome, hdest, rfl⟩
    have habs : (e.1 - s.1).natAbs = 2 := by
      cases hw : is_white (bget b s.1 s.2) <;>
        simp only [hw, Bool.false_eq_true, if_false, eq_self_iff_true, if_true] at hdest <;>
        omega
    rw [if_pos ⟨hP, habs⟩, Option.some.injEq, Prod.mk.injEq]
    refine ⟨?_, rfl⟩
    cases hw : is_white (bget b s.1 s.2) <;>
      simp only [hw, Bool.false_eq_true, if_false, eq_self_iff_true, if_true] at hdest ⊢ <;>
      omega


/-- Witness for C6: from the initial position, the accepted double step
"e2 e4" yields the en-passant target e3. -/
theorem c6_witness :
    (move_with_extras STARTING_BOARD (6, 4) (4, 4) true none CASTLE_RIGHTS promoQ).2.1 =
      some (5, 4) :=
  (c6_en_passant_target_exactly_on_double_step STARTING_BOARD (6, 4) (4, 4) true none
      CASTLE_RIGHTS promoQ (5, 4) (by decide)).mpr
    ⟨by decide, by decide, by decide, by decide⟩

/-! ### Claim C5: the en-passant capture of move_with_extras. -/

/-- In-bounds coordinates can be recombined componentwise. -/
lemma in_bounds_mix {r1 c1 r2 c2 : Int} (h1 : in_bounds r1 c1 = true)
    (h2 : in_bounds r2 c2 = true) : in_bounds r1 c2 = true := by
  simp only [in_bounds, decide_eq_true_eq] at h1 h2 ⊢
  omega

/-- Claim C5.  When move_with_extras applies a pawn move whose destination
equals the en-passant target, changes file and lands on an empty square (the
destination not being a promotion rank, as an en-passant target never is),
the returned board holds the moving pawn on the destination, the square
beside the mover at (origin row, destination column) — where the enemy pawn
stood — is now empty, the origin is cleared, and every other square is
untouched. -/
theorem c5_en_passant_capture
    (b : Board) (r1 c1 r2 c2 : Int) (tw : Bool) (cr : CRights) (promo : Color → Char)
    (hwb : WB b)
    (h1 : in_bounds r1 c1 = true) (h2 : in_bounds r2 c2 = true)
    (hP : (bget b r1 c1).toUpper = 'P')
    (hc : c1 ≠ c2) (hr : r1 ≠ r2)
    (hrow0 : r2 ≠ 0) (hrow7 : r2 ≠ 7)
    (hempty : bget b r2 c2 = '.')
    (henemy : bget b r1 c2 = (if is_white (bget b r1 c1) then 'p' else 'P')) :
    bget (move_with_extras b (r1, c1) (r2, c2) tw (some (r2, c2)) cr promo).1 r2 c2 =
      bget b r1 c1 ∧
    bget (move_with_extras b (r1, c1) (r2, c2) tw (some (r2, c2)) cr promo).1 r1 c2 = '.' ∧
    bget (move_with_extras b (r1, c1) (r2, c2) tw (some (r2, c2)) cr promo).1 r1 c1 = '.' ∧
    (∀ r c : Int, (r, c) ≠ (r1, c1) → (r, c) ≠ (r1, c2) → (r, c) ≠ (r2, c2) →
      bget (move_with_extras b (r1, c1) (r2, c2) tw (some (r2, c2)) cr promo).1 r c =
        bget b r c) := by
  have hb1 : WB (bset b r1 c1 '.') := WB_bset hwb r1 c1 '.'
  have hb2 : WB (bset (bset b r1 c1 '.') r1 c2 '.') := WB_bset hb1 r1 c2 '.'
  have hep : bget (bset b r1 c1 '.') r2 c2 = '.' := by
    rw [bget_bset_other (by intro hcon; rw [Prod.mk.injEq] at hcon; omega) '.']
    exact hempty
  have hboard :
      (move_with_extras b (r1, c1) (r2, c2) tw (some (r2, c2)) cr promo).1 =
        bset (bset (bset b r1 c1 '.') r1 c2 '.') r2 c2 (bget b r1 c1) := by
    rw [move_with_extras]
    rw [if_neg (by intro hcon; rw [hP] at hcon; exact absurd hcon.1 (by decide))]
    rw [if_neg (by intro hcon; rw [hP] at hcon; exact absurd hcon.1 (by decide))]
    simp only
    rw [if_neg (by
      intro hcon
      rcases hcon.2 with ⟨-, h0⟩ | ⟨-, h7⟩
      · exact hrow0 h0
      · exact hrow7 h7)]
    rw [if_pos ⟨hP, trivial, hc, hep⟩]
  rw [hboard]
  refine ⟨?_, ?_, ?_, ?_⟩
  · exact bget_bset_same hb2 h2 _
  · rw [bget_bset_other (by intro hcon; rw [Prod.mk.injEq] at hcon; omega) _]
    exact bget_bset_same hb1 (in_bounds_mix h1 h2) '.'
  · rw [bget_bset_other (by intro hcon; rw [Prod.mk.injEq] at hcon; omega) _,
      bget_bset_other (by intro hcon; rw [Prod.mk.injEq] at hcon; omega) _]
    exact bget_bset_same hwb h1 '.'
  · intro r c hne1 hne2 hne3
    rw [bget_bset_other hne3 _, bget_bset_other hne2 _, bget_bset_other hne1 _]


/-- Witness for C5: white pawn e5 captures "e5 d6" en passant after black's
d7 d5; the black pawn disappears from d5 and the white pawn lands on d6. -/
theorem c5_witness :
    bget (move_with_extras b_ep (3, 4) (2, 3) true (some (2, 3)) CASTLE_RIGHTS promoQ).1 2 3 = 'P' ∧
    bget (move_with_extras b_ep (3, 4) (2, 3) true (some (2, 3)) CASTLE_RIGHTS promoQ).1 3 3 = '.' ∧
    bget (move_with_extras b_ep (3, 4) (2, 3) true (some (2, 3)) CASTLE_RIGHTS promoQ).1 3 4 = '.' := by
  have h := c5_en_passant_capture b_ep 3 4 2 3 true CASTLE_RIGHTS promoQ
    (by decide) (by decide) (by decide) (by decide) (by decide) (by decide)
    (by decide) (by decide) (by decide) (by decide)
  exact ⟨h.1, h.2.1, h.2.2.1⟩

/-! ### Claim C2, amended: the conditions can_castle actually requires. -/

/-- Amended claim C2.  can_castle returns true only if: the relevant right is
still true; the king sits on its home square; the squares strictly between
king and rook are empty; the corresponding corner square holds a same-color
rook; and neither of the squares the king steps to — the intermediate square
and the destination, but not the origin — is attacked, each tested by
CheckDetector on a scratch board with the king relocated there.  The origin
square is never tested, which is exactly where the original claim fails. -/
theorem c2_can_castle_only_if (b : Board) (color : Color) (side : Side)
    (rights : Bool × Bool) (h : can_castle b color side rights = true) :
    match side with
    | Side.king =>
      rights.1 = true ∧
      bget b (home_row color) 4 = king_char color ∧
      bget b (home_row color) 5 = '.' ∧ bget b (home_row color) 6 = '.' ∧
      (bget b (home_row color) 7 = 'R' ∨ bget b (home_row color) 7 = 'r') ∧
      get_piece_color (bget b (home_row color) 7) = some color ∧
      in_check (bset (bset b (home_row color) 4 '.') (home_row color) 5
        (king_char color)) color = false ∧
      in_check (bset (bset (bset (bset b (home_row color) 4 '.') (home_row color) 5
        (king_char color)) (home_row color) 5 '.') (home_row color) 6
        (king_char color)) color = false
    | Side.queen =>
      rights.2 = true ∧
      bget b (home_row color) 4 = king_char color ∧
      bget b (home_row color) 3 = '.' ∧ bget b (home_row color) 2 = '.' ∧
      bget b (home_row color) 1 = '.' ∧
      (bget b (home_row color) 0 = 'R' ∨ bget b (home_row color) 0 = 'r') ∧
      get_piece_color (bget b (home_row color) 0) = some color ∧
      in_check (bset (bset b (home_row color) 4 '.') (home_row color) 3
        (king_char color)) color = false ∧
      in_check (bset (bset (bset (bset b (home_row color) 4 '.') (home_row color) 3
        (king_char color)) (home_row color) 3 '.') (home_row color) 2
        (king_char color)) color = false := by
  cases side <;>
  · simp only [can_castle, Bool.and_eq_true, Bool.not_eq_true', decide_eq_true_eq] at h
    simp only []
    tauto


/-- Witness for the amended C2, instantiating it on the castling position of
scenario 4, where can_castle accepts white kingside castling. -/
theorem c2_witness :
    (true, true).1 = true ∧
    bget b_castle (home_row .white) 4 = king_char .white ∧
    bget b_castle (home_row .white) 5 = '.' ∧ bget b_castle (home_row .white) 6 = '.' ∧
    (bget b_castle (home_row .white) 7 = 'R' ∨ bget b_castle (home_row .white) 7 = 'r') ∧
    get_piece_color (bget b_castle (home_row .white) 7) = some .white ∧
    in_check (bset (bset b_castle (home_row .white) 4 '.') (home_row .white) 5
      (king_char .white)) .white = false ∧
    in_check (bset (bset (bset (bset b_castle (home_row .white) 4 '.') (home_row .white) 5
      (king_char .white)) (home_row .white) 5 '.') (home_row .white) 6
      (king_char .white)) .white = false :=
  c2_can_castle_only_if b_castle .white .king (true, true) (by decide)

/-! ### Claim C4: slider blocking along precomputed rays. -/

/-- The squares a ray scan visits strictly before reaching the destination. -/
def squares_before (e : Square) : List Square → List Square
  | [] => []
  | sq :: rest => if sq = e then [] else sq :: squares_before e rest

/-- Any member of a fuel-bounded ray is in bounds and a positive multiple of
the direction away from the origin. -/
lemma mem_ray_from {sq : Square} {dr dc : Int} :
    ∀ (n : Nat) (r c : Int), sq ∈ ray_from r c dr dc n →
      in_bounds sq.1 sq.2 = true ∧
      ∃ k : Int, 1 ≤ k ∧ k ≤ n ∧ sq.1 = r + k * dr ∧ sq.2 = c + k * dc := by
  intro n
  induction n with
  | zero => intro r c h; simp [ray_from] at h
  | succ m ih =>
    intro r c h
    rw [ray_from] at h
    by_cases hb : in_bounds (r + dr) (c + dc) = true
    · rw [if_pos hb] at h
      rcases List.mem_cons.mp h with h | h
      · subst h
        exact ⟨hb, 1, le_refl 1, by omega, by ring, by ring⟩
      · obtain ⟨hin, k, hk1, hk2, hr, hc⟩ := ih (r + dr) (c + dc) h
        exact ⟨hin, k + 1, by omega, by omega, by rw [hr]; ring, by rw [hc]; ring⟩
    · rw [if_neg hb] at h
      simp at h

/-- Any member of a table ray is in bounds and k steps along the direction
for some 1 <= k <= 8. -/
lemma mem_ray {sq : Square} {r c dr dc : Int} (h : sq ∈ ray r c dr dc) :
    in_bounds sq.1 sq.2 = true ∧
    ∃ k : Int, 1 ≤ k ∧ k ≤ 8 ∧ sq.1 = r + k * dr ∧ sq.2 = c + k * dc := by
  obtain ⟨hin, k, hk1, hk2, hr, hc⟩ := mem_ray_from 8 r c h
  exact ⟨hin, k, hk1, by omega, hr, hc⟩

/-- The ray scan succeeds exactly when every square strictly before the
destination on the ray is empty. -/
lemma ray_scan_iff {b : Board} {e : Square} :
    ∀ l : List Square, e ∈ l →
      (ray_scan b e l = true ↔ ∀ sq ∈ squares_before e l, bget b sq.1 sq.2 = '.') := by
  intro l
  induction l with
  | nil => intro h; simp at h
  | cons sq rest ih =>
    intro hmem
    by_cases hsq : sq = e
    · rw [ray_scan, if_pos hsq, squares_before, if_pos hsq]
      simp
    · have hrest : e ∈ rest := by
        rcases List.mem_cons.mp hmem with h | h
        · exact absurd h.symm hsq
        · exact h
      rw [ray_scan, if_neg hsq, squares_before, if_neg hsq]
      by_cases hocc : bget b sq.1 sq.2 ≠ '.'
      · rw [if_pos hocc]
        constructor
        · intro h; exact absurd h (by simp)
        · intro h
          exact absurd (h sq (List.mem_cons_self sq _)) hocc
      · rw [if_neg hocc]
        push_neg at hocc
        rw [ih hrest]
        constructor
        · intro h sq' hsq'
          rcases List.mem_cons.mp hsq' with h' | h'
          · subst h'; exact hocc
          · exact h sq' h'
        · intro h sq' hsq'
          exact h sq' (List.mem_cons_of_mem _ hsq')

/-- When exactly one ray of the list contains the destination, the outer
loop reduces to scanning that ray. -/
lemma slide_valid_first {b : Board} {e : Square} :
    ∀ (rays : List (List Square)) (ray0 : List Square), ray0 ∈ rays → e ∈ ray0 →
      (∀ r' ∈ rays, e ∈ r' → r' = ray0) →
      slide_valid b e rays = ray_scan b e ray0 := by
  intro rays
  induction rays with
  | nil => intro ray0 h0 _ _; simp at h0
  | cons hd tl ih =>
    intro ray0 h0 he huniq
    by_cases hehd : e ∈ hd
    · have : hd = ray0 := huniq hd (List.mem_cons_self hd tl) hehd
      rw [slide_valid, if_pos hehd, this]
    · rw [slide_valid, if_neg hehd]
      have h0' : ray0 ∈ tl := by
        rcases List.mem_cons.mp h0 with h | h
        · exact absurd (h ▸ he) hehd
        · exact h
      exact ih ray0 h0' he (fun r' hr' => huniq r' (List.mem_cons_of_mem _ hr'))

/-- When no ray contains the destination the outer loop fails. -/
lemma slide_valid_none {b : Board} {e : Square} :
    ∀ rays : List (List Square), (∀ r' ∈ rays, e ∉ r') →
      slide_valid b e rays = false := by
  intro rays
  induction rays with
  | nil => intro _; rfl
  | cons hd tl ih =>
    intro h
    rw [slide_valid, if_neg (h hd (List.mem_cons_self hd tl))]
    exact ih (fun r' hr' => h r' (List.mem_cons_of_mem _ hr'))


/-- Two table directions whose rays from the same origin share a square are
equal: distinct rook and bishop rays are pairwise disjoint. -/
lemma ray_dir_unique {e : Square} {r c : Int} {d1 d2 : Int × Int}
    (hd1 : d1 ∈ rook_dirs ++ bishop_dirs) (hd2 : d2 ∈ rook_dirs ++ bishop_dirs)
    (h1 : e ∈ ray r c d1.1 d1.2) (h2 : e ∈ ray r c d2.1 d2.2) : d1 = d2 := by
  obtain ⟨-, k1, hk11, hk12, he11, he12⟩ := mem_ray h1
  obtain ⟨-, k2, hk21, hk22, he21, he22⟩ := mem_ray h2
  simp only [rook_dirs, bishop_dirs, List.mem_append, List.mem_cons,
    List.not_mem_nil, or_false] at hd1 hd2
  rcases hd1 with (rfl | rfl | rfl | rfl) | rfl | rfl | rfl | rfl <;>
    rcases hd2 with (rfl | rfl | rfl | rfl) | rfl | rfl | rfl | rfl <;>
    dsimp only at he11 he12 he21 he22 <;>
    first
    | rfl
    | (exfalso; omega)

/-- No direction is both a rook and a bishop direction. -/
lemma rook_bishop_dirs_disjoint {d : Int × Int}
    (h1 : d ∈ rook_dirs) (h2 : d ∈ bishop_dirs) : False := by
  simp only [rook_dirs, bishop_dirs, List.mem_cons, List.not_mem_nil, or_false] at h1 h2
  rcases h1 with rfl | rfl | rfl | rfl <;> simp at h2

/-- Every stored ray arises from one of the eight directions. -/
lemma ray_of_mem_slides {r c : Int} {ray0 : List Square}
    (h : ray0 ∈ rook_slides r c ++ bishop_slides r c) :
    ∃ d ∈ rook_dirs ++ bishop_dirs, ray0 = ray r c d.1 d.2 := by
  rw [List.mem_append] at h
  rcases h with h | h
  · simp only [rook_slides, List.mem_map] at h
    obtain ⟨d, hd, h⟩ := h
    exact ⟨d, List.mem_append_left _ hd, h.symm⟩
  · simp only [bishop_slides, List.mem_map] at h
    obtain ⟨d, hd, h⟩ := h
    exact ⟨d, List.mem_append_right _ hd, h.symm⟩

/-- At most one stored ray contains a given destination. -/
lemma slides_unique {e : Square} {r c : Int} {ray0 ray1 : List Square}
    (h0 : ray0 ∈ rook_slides r c ++ bishop_slides r c)
    (h1 : ray1 ∈ rook_slides r c ++ bishop_slides r c)
    (he0 : e ∈ ray0) (he1 : e ∈ ray1) : ray1 = ray0 := by
  obtain ⟨d0, hd0, rfl⟩ := ray_of_mem_slides h0
  obtain ⟨d1, hd1, rfl⟩ := ray_of_mem_slides h1
  rw [ray_dir_unique hd1 hd0 he1 he0]

/-- A destination on a rook ray lies on no bishop ray of the same origin. -/
lemma not_in_bishop_family {r c : Int} {e : Square} {ray0 : List Square}
    (hrk : ray0 ∈ rook_slides r c) (he : e ∈ ray0) :
    ∀ r' ∈ bishop_slides r c, e ∉ r' := by
  intro r' hr' he'
  obtain ⟨d0, hd0, rfl⟩ : ∃ d ∈ rook_dirs, ray0 = ray r c d.1 d.2 := by
    simp only [rook_slides, List.mem_map] at hrk
    obtain ⟨d, hd, h⟩ := hrk
    exact ⟨d, hd, h.symm⟩
  obtain ⟨d1, hd1, rfl⟩ : ∃ d ∈ bishop_dirs, r' = ray r c d.1 d.2 := by
    simp only [bishop_slides, List.mem_map] at hr'
    obtain ⟨d, hd, h⟩ := hr'
    exact ⟨d, hd, h.symm⟩
  have hdd := ray_dir_unique (List.mem_append_left _ hd0)
    (List.mem_append_right _ hd1) he he'
  rw [hdd] at hd0
  exact rook_bishop_dirs_disjoint hd0 hd1

/-- A destination on a bishop ray lies on no rook ray of the same origin. -/
lemma not_in_rook_family {r c : Int} {e : Square} {ray0 : List Square}
    (hbp : ray0 ∈ bishop_slides r c) (he : e ∈ ray0) :
    ∀ r' ∈ rook_slides r c, e ∉ r' := by
  intro r' hr' he'
  obtain ⟨d0, hd0, rfl⟩ : ∃ d ∈ bishop_dirs, ray0 = ray r c d.1 d.2 := by
    simp only [bishop_slides, List.mem_map] at hbp
    obtain ⟨d, hd, h⟩ := hbp
    exact ⟨d, hd, h.symm⟩
  obtain ⟨d1, hd1, rfl⟩ : ∃ d ∈ rook_dirs, r' = ray r c d.1 d.2 := by
    simp only [rook_slides, List.mem_map] at hr'
    obtain ⟨d, hd, h⟩ := hr'
    exact ⟨d, hd, h.symm⟩
  have hdd := ray_dir_unique (List.mem_append_right _ hd0)
    (List.mem_append_left _ hd1) he he'
  rw [hdd] at hd0
  exact rook_bishop_dirs_disjoint hd1 hd0


/-- The precomputed rays the validator consults for a slider piece: the rook
table for rooks, the bishop table for bishops, both for queens. -/
def slider_rays (piece : Char) (s : Square) : List (List Square) :=
  if piece.toUpper = 'R' then rook_slides s.1 s.2
  else if piece.toUpper = 'B' then bishop_slides s.1 s.2
  else if piece.toUpper = 'Q' then rook_slides s.1 s.2 ++ bishop_slides s.1 s.2
  else []

/-- Slider rays always come from the two stored tables. -/
lemma slider_rays_sub {piece : Char} {s : Square} {ray0 : List Square}
    (h : ray0 ∈ slider_rays piece s) :
    ray0 ∈ rook_slides s.1 s.2 ++ bishop_slides s.1 s.2 := by
  unfold slider_rays at h
  split_ifs at h with h1 h2 h3
  · exact List.mem_append_left _ h
  · exact List.mem_append_right _ h
  · exact h
  · simp at h

/-- When the turn flag matches the piece color both ownership guards pass. -/
lemma turn_guards_pass {b : Board} {s : Square} (tw : Bool)
    (htw : tw = is_white (bget b s.1 s.2)) :
    ¬(tw = true ∧ piece_color_at b s ≠ Color.white) ∧
    ¬(¬ tw = true ∧ piece_color_at b s ≠ Color.black) := by
  subst htw
  cases hw : is_white (bget b s.1 s.2) <;> simp [piece_color_at, hw]

/-- A destination that does not hold an own piece is empty or enemy. -/
lemma dest_ok_of_not_own {b : Board} {s e : Square}
    (htgt : ¬(bget b e.1 e.2 ≠ '.' ∧
      get_piece_color (bget b e.1 e.2) = some (piece_color_at b s))) :
    bget b e.1 e.2 = '.' ∨ get_piece_color (bget b e.1 e.2) =
      some (if is_white (bget b s.1 s.2) then Color.black else Color.white) := by
  by_cases hdot : bget b e.1 e.2 = '.'
  · exact Or.inl hdot
  · right
    push_neg at htgt
    have hne := htgt hdot
    rw [get_piece_color, if_neg hdot] at hne ⊢
    rw [piece_color_at] at hne
    cases hw : is_white (bget b s.1 s.2) <;> cases hu : (bget b e.1 e.2).isUpper <;>
      simp_all [is_white]

/-- Claim C4.  For a slider of the side to move and a destination lying on
one of its precomputed rays, geometry-only validation accepts the move
exactly when every square strictly between origin and destination along that
ray is empty and the destination is empty or holds an enemy piece.  In
particular a piece strictly between blocks everything beyond it, landing on
an enemy blocker is legal, and nothing on or beyond a friendly blocker is
reachable. -/
theorem c4_slider_blocking_characterization
    (b : Board) (s e : Square) (tw : Bool) (ep : Option Square) (ray0 : List Square)
    (hin : in_bounds s.1 s.2 = true)
    (hsl : bget b s.1 s.2 = 'R' ∨ bget b s.1 s.2 = 'r' ∨ bget b s.1 s.2 = 'B' ∨
      bget b s.1 s.2 = 'b' ∨ bget b s.1 s.2 = 'Q' ∨ bget b s.1 s.2 = 'q')
    (hray : ray0 ∈ slider_rays (bget b s.1 s.2) s)
    (he : e ∈ ray0)
    (htw : tw = is_white (bget b s.1 s.2)) :
    valid_geom b s e tw ep = true ↔
      ((∀ sq ∈ squares_before e ray0, bget b sq.1 sq.2 = '.') ∧
       (bget b e.1 e.2 = '.' ∨ get_piece_color (bget b e.1 e.2) =
         some (if is_white (bget b s.1 s.2) then Color.black else Color.white))) := by
  have hein : in_bounds e.1 e.2 = true := by
    obtain ⟨d, hd, hray0⟩ := ray_of_mem_slides (slider_rays_sub hray)
    exact (mem_ray (hray0 ▸ he)).1
  have hguards := turn_guards_pass tw htw
  rw [valid_geom]
  rw [if_neg (not_not_intro ⟨hin, hein⟩)]
  have hdot : ¬ bget b s.1 s.2 = '.' := by
    rcases hsl with hp | hp | hp | hp | hp | hp <;> rw [hp] <;> decide
  rw [if_neg hdot, if_neg hguards.1, if_neg hguards.2]
  by_cases htgt : (bget b e.1 e.2 ≠ '.' ∧
      get_piece_color (bget b e.1 e.2) = some (piece_color_at b s))
  · rw [if_pos htgt]
    constructor
    · intro h
      exact absurd h (by simp)
    · rintro ⟨-, hdest⟩
      exfalso
      rcases hdest with hdest | hdest
      · exact htgt.1 hdest
      · rw [htgt.2, piece_color_at] at hdest
        cases hw : is_white (bget b s.1 s.2) <;> rw [hw] at hdest <;> simp at hdest
  · rw [if_neg htgt]
    rw [and_iff_left (dest_ok_of_not_own htgt)]
    rcases hsl with hp | hp | hp | hp | hp | hp
    · rw [if_neg (by rw [hp]; decide), if_neg (by rw [hp]; decide),
        if_neg (by rw [hp]; decide), if_pos (by rw [hp]; decide)]
      rw [hp] at hray
      unfold slider_rays at hray
      rw [if_pos (by decide)] at hray
      rw [valid_rook_move,
        slide_valid_first (rook_slides s.1 s.2) ray0 hray he
          (fun r' hr' he' => slides_unique (List.mem_append_left _ hray)
            (List.mem_append_left _ hr') he he')]
      exact ray_scan_iff ray0 he
    · rw [if_neg (by rw [hp]; decide), if_neg (by rw [hp]; decide),
        if_neg (by rw [hp]; decide), if_pos (by rw [hp]; decide)]
      rw [hp] at hray
      unfold slider_rays at hray
      rw [if_pos (by decide)] at hray
      rw [valid_rook_move,
        slide_valid_first (rook_slides s.1 s.2) ray0 hray he
          (fun r' hr' he' => slides_unique (List.mem_append_left _ hray)
            (List.mem_append_left _ hr') he he')]
      exact ray_scan_iff ray0 he
    · rw [if_neg (by rw [hp]; decide), if_neg (by rw [hp]; decide),
        if_pos (by rw [hp]; decide)]
      rw [hp] at hray
      unfold slider_rays at hray
      rw [if_neg (by decide), if_pos (by decide)] at hray
      rw [valid_bishop_move,
        slide_valid_first (bishop_slides s.1 s.2) ray0 hray he
          (fun r' hr' he' => slides_unique (List.mem_append_right _ hray)
            (List.mem_append_right _ hr') he he')]
      exact ray_scan_iff ray0 he
    · rw [if_neg (by rw [hp]; decide), if_neg (by rw [hp]; decide),
        if_pos (by rw [hp]; decide)]
      rw [hp] at hray
      unfold slider_rays at hray
      rw [if_neg (by decide), if_pos (by decide)] at hray
      rw [valid_bishop_move,
        slide_valid_first (bishop_slides s.1 s.2) ray0 hray he
          (fun r' hr' he' => slides_unique (List.mem_append_right _ hray)
            (List.mem_append_right _ hr') he he')]
      exact ray_scan_iff ray0 he
    · rw [if_neg (by rw [hp]; decide), if_neg (by rw [hp]; decide),
        if_neg (by rw [hp]; decide), if_neg (by rw [hp]; decide),
        if_pos (by rw [hp]; decide)]
      rw [hp] at hray
      unfold slider_rays at hray
      rw [if_neg (by decide), if_neg (by decide), if_pos (by decide)] at hray
      rcases List.mem_append.mp hray with hrk | hbp
      · have hb0 : valid_bishop_move b s e = false := by
          rw [valid_bishop_move]
          exact slide_valid_none _ (not_in_bishop_family hrk he)
        have hr0 : valid_rook_move b s e = ray_scan b e ray0 := by
          rw [valid_rook_move]
          exact slide_valid_first _ ray0 hrk he
            (fun r' hr' he' => slides_unique (List.mem_append_left _ hrk)
              (List.mem_append_left _ hr') he he')
        rw [valid_queen_move, hr0, hb0, Bool.or_false]
        exact ray_scan_iff ray0 he
      · have hr0 : valid_rook_move b s e = false := by
          rw [valid_rook_move]
          exact slide_valid_none _ (not_in_rook_family hbp he)
        have hb0 : valid_bishop_move b s e = ray_scan b e ray0 := by
          rw [valid_bishop_move]
          exact slide_valid_first _ ray0 hbp he
            (fun r' hr' he' => slides_unique (List.mem_append_right _ hbp)
              (List.mem_append_right _ hr') he he')
        rw [valid_queen_move, hr0, hb0, Bool.false_or]
        exact ray_scan_iff ray0 he
    · rw [if_neg (by rw [hp]; decide), if_neg (by rw [hp]; decide),
        if_neg (by rw [hp]; decide), if_neg (by rw [hp]; decide),
        if_pos (by rw [hp]; decide)]
      rw [hp] at hray
      unfold slider_rays at hray
      rw [if_neg (by decide), if_neg (by decide), if_pos (by decide)] at hray
      rcases List.mem_append.mp hray with hrk | hbp
      · have hb0 : valid_bishop_move b s e = false := by
          rw [valid_bishop_move]
          exact slide_valid_none _ (not_in_bishop_family hrk he)
        have hr0 : valid_rook_move b s e = ray_scan b e ray0 := by
          rw [valid_rook_move]
          exact slide_valid_first _ ray0 hrk he
            (fun r' hr' he' => slides_unique (List.mem_append_left _ hrk)
              (List.mem_append_left _ hr') he he')
        rw [valid_queen_move, hr0, hb0, Bool.or_false]
        exact ray_scan_iff ray0 he
      · have hr0 : valid_rook_move b s e = false := by
          rw [valid_rook_move]
          exact slide_valid_none _ (not_in_rook_family hbp he)
        have hb0 : valid_bishop_move b s e = ray_scan b e ray0 := by
          rw [valid_bishop_move]
          exact slide_valid_first _ ray0 hbp he
            (fun r' hr' he' => slides_unique (List.mem_append_right _ hbp)
              (List.mem_append_right _ hr') he he')
        rw [valid_queen_move, hr0, hb0, Bool.false_or]
        exact ray_scan_iff ray0 he


/-- Sliding-move test board: a white rook on e4, a black rook on g4 two
squares to its right, kings on their home squares. -/
def b_slide : Board :=
  [ "....k...".toList, "........".toList, "........".toList, "........".toList,
    "....R.r.".toList, "........".toList, "........".toList, "....K...".toList ]

/-- Witness for C4: the white rook on e4 may land exactly on the enemy
blocker on g4, the square between them being empty. -/
theorem c4_witness :
    valid_geom b_slide (4, 4) (4, 6) true none = true :=
  (c4_slider_blocking_characterization b_slide (4, 4) (4, 6) true none
      (ray 4 4 0 1) (by decide) (by decide) (by decide) (by decide) (by decide)).mpr
    ⟨by decide, by decide⟩

end ChessBot
